import Mathlib

/-!
# Verification of the tmaskills repository

Shallow embedding of two subsystems:

* the Task Management CRUD service (`app/crud/task.py`, `app/schemas/task.py`,
  `app/api/v1/endpoints/tasks.py`), translated directly from the source; the
  database is modelled as a list of task rows, and the async session operations
  become explicit state passing;
* the regex-based security/secret scanning engine (`secret_detector.py`,
  `security_scan.py`, `dependency_check.py`), whose source files are not part
  of the checked-out tree; these definitions are modelled from the spec, each
  marked `Modelled from the spec:` in its doc comment.  The regex matcher
  itself is kept abstract (a function from content to raw matches), since the
  claims under scrutiny concern masking, line resolution, suppression, walking
  and aggregation, not regex semantics.
-/

namespace TaskApi

/-- `TaskStatus` enumeration from `app/models/task.py`. -/
inductive TaskStatus where
  | pending
  | inProgress
  | completed
deriving DecidableEq

/-- String value of a `TaskStatus`, as stored in the database column. -/
def TaskStatus.val : TaskStatus → String
  | .pending => "pending"
  | .inProgress => "in_progress"
  | .completed => "completed"

/-- `TaskPriority` enumeration from `app/models/task.py`. -/
inductive TaskPriority where
  | low
  | medium
  | high
deriving DecidableEq

/-- String value of a `TaskPriority`, as stored in the database column. -/
def TaskPriority.val : TaskPriority → String
  | .low => "low"
  | .medium => "medium"
  | .high => "high"

/-- The `Task` table row from `app/models/task.py`.  Timestamps are modelled
as natural numbers (e.g. microseconds since the epoch); their only role in the
claims is ordering and equality. -/
structure Task where
  id : Nat
  title : String
  description : Option String
  status : TaskStatus
  priority : TaskPriority
  created_at : Nat
  updated_at : Nat
deriving DecidableEq

/-- The `TaskUpdate` schema from `app/schemas/task.py`: all fields optional;
`none` models a field absent from the request payload (pydantic
`exclude_unset`), `some` a field explicitly set.  `description` may be
explicitly set to null, hence the nested option. -/
structure TaskUpdate where
  title : Option String
  description : Option (Option String)
  status : Option TaskStatus
  priority : Option TaskPriority
deriving DecidableEq

/-- `crud.get_task`: `SELECT ... WHERE Task.id == task_id`, first row or
none (ids are unique in a real table, being the primary key). -/
def get_task (db : List Task) (task_id : Nat) : Option Task :=
  db.find? (fun t => t.id == task_id)

/-- `crud.delete_task`: fetch by id; if absent return `False` leaving the
table as is, otherwise delete that row and return `True`. -/
def delete_task (db : List Task) (task_id : Nat) : Bool × List Task :=
  match get_task db task_id with
  | none => (false, db)
  | some _ => (true, db.eraseP (fun t => t.id == task_id))

/-- The `DELETE /tasks/{task_id}` endpoint from
`app/api/v1/endpoints/tasks.py`: 404 (`TaskNotFoundException`) when
`crud.delete_task` reports the id missing, 204 otherwise. -/
def delete_task_endpoint (db : List Task) (task_id : Nat) :
    Except Nat (List Task) :=
  let r := delete_task db task_id
  if r.1 then Except.ok r.2 else Except.error 404

/-- The field-update loop of `crud.update_task`: `setattr` for every field
present in `task_in.model_dump(exclude_unset=True)`, then
`task.updated_at = datetime.utcnow()`.  `id` and `created_at` are never
touched. -/
def applyUpdate (t : Task) (u : TaskUpdate) (now : Nat) : Task :=
  { t with
    title := u.title.getD t.title
    description := u.description.getD t.description
    status := u.status.getD t.status
    priority := u.priority.getD t.priority
    updated_at := now }

/-- `crud.update_task`: fetch by id; `none` and an unchanged table when the
id is absent, otherwise the updated row is written back in place. -/
def update_task (db : List Task) (task_id : Nat) (u : TaskUpdate)
    (now : Nat) : Option Task × List Task :=
  match get_task db task_id with
  | none => (none, db)
  | some t =>
    let t2 := applyUpdate t u now
    (some t2, db.map (fun s => if s.id == task_id then t2 else s))

/-- Python truthiness of the `Optional[str]` filter arguments in
`crud.get_tasks` (`if status:` — both `None` and the empty string skip the
filter). -/
def filterActive : Option String → Bool
  | none => false
  | some s => s != ""

/-- The WHERE clause built by `crud.get_tasks`: equality on the stored
status/priority strings, one conjunct per active filter. -/
def matchesFilters (status priority : Option String) (t : Task) : Bool :=
  (match status with
   | none => true
   | some s => if s != "" then t.status.val == s else true) &&
  (match priority with
   | none => true
   | some p => if p != "" then t.priority.val == p else true)

/-- Insert a task into a list kept in descending `created_at` order. -/
def insertDesc (t : Task) : List Task → List Task
  | [] => [t]
  | s :: rest =>
    if t.created_at ≤ s.created_at then s :: insertDesc t rest
    else t :: s :: rest

/-- `ORDER BY created_at DESC`, as an insertion sort. -/
def sortByCreatedDesc : List Task → List Task
  | [] => []
  | t :: rest => insertDesc t (sortByCreatedDesc rest)

/-- `crud.get_tasks`: the page query is the filtered table ordered by
`created_at` descending with `OFFSET skip LIMIT limit`; the count query
applies the same filters to the whole table with no pagination. -/
def get_tasks (db : List Task) (skip limit : Nat)
    (status priority : Option String) : List Task × Nat :=
  let filtered := db.filter (matchesFilters status priority)
  let ordered := sortByCreatedDesc filtered
  (((ordered.drop skip).take limit), filtered.length)

/-- A small concrete table used to exercise the CRUD operations. -/
def dbW : List Task :=
  [⟨1, "alpha", none, TaskStatus.pending, TaskPriority.low, 0, 0⟩,
   ⟨2, "beta", some "d", TaskStatus.completed, TaskPriority.high, 5, 5⟩]

/-- A concrete update payload: title and status set, the rest unset. -/
def updW : TaskUpdate :=
  ⟨some "new title", none, some TaskStatus.completed, none⟩

end TaskApi

namespace Scanner

/-- Modelled from the spec: the masking step of the match engine — keep the
first 8 characters of the matched text and replace the remainder with `*`;
a matched text of 8 characters or fewer masks to the literal `***`. -/
def mask (s : String) : String :=
  if s.length ≤ 8 then "***"
  else s.take 8 ++ String.mk (List.replicate (s.length - 8) (Char.ofNat 42))

/-- Modelled from the spec: a raw regex match as handed to the engine by a
rule — start offset into the content, full matched text, quoted captured
value, and the rule's label and severity. -/
structure RawMatch where
  start : Nat
  text : String
  value : String
  label : String
  severity : String
deriving DecidableEq

/-- Modelled from the spec: a single detection instance. -/
structure Finding where
  file_path : String
  line_number : Nat
  severity : String
  label : String
  code_snippet : String
  masked_value : String
deriving DecidableEq

/-- Modelled from the spec: number of newline characters strictly before a
character offset. -/
def newlinesBefore (cs : List Char) (off : Nat) : Nat :=
  (cs.take off).countP (fun c => c == Char.ofNat 10)

/-- Modelled from the spec: 1-based line number of a whole-content match,
resolved from its start offset. -/
def lineNumberOf (cs : List Char) (off : Nat) : Nat :=
  newlinesBefore cs off + 1

/-- Split content into lines at newline characters (the `content.split`
step done once per file). -/
def splitLines : List Char → List (List Char)
  | [] => [[]]
  | c :: rest =>
    let r := splitLines rest
    if c == Char.ofNat 10 then [] :: r
    else (c :: r.headD []) :: r.tail

/-- The source line containing a given character offset. -/
def lineAt (cs : List Char) (off : Nat) : List Char :=
  (splitLines cs).getD (newlinesBefore cs off) []

/-- Trim whitespace from both ends of a line. -/
def trimChars (l : List Char) : List Char :=
  ((l.dropWhile Char.isWhitespace).reverse.dropWhile Char.isWhitespace).reverse

/-- Modelled from the spec: comment markers recognised by false-positive
suppression. -/
def COMMENT_MARKERS : List String := ["#", "//", "/*", "*", "<!--"]

/-- Modelled from the spec: a line is a comment line when, after trimming
whitespace, it begins with one of the comment markers. -/
def isCommentLine (l : List Char) : Bool :=
  COMMENT_MARKERS.any (fun m => m.toList.isPrefixOf (trimChars l))

/-- Substring containment on character lists. -/
def containsSub (hay needle : List Char) : Bool :=
  match hay with
  | [] => needle.isEmpty
  | _ :: tail => needle.isPrefixOf hay || containsSub tail needle

/-- Modelled from the spec: placeholder keywords of suppression rule (b). -/
def PLACEHOLDER_WORDS : List String :=
  ["example", "test", "dummy", "fake", "sample", "placeholder"]

/-- Modelled from the spec: secret-related keywords of suppression rule (b). -/
def SECRET_WORDS : List String := ["password", "secret", "key", "token"]

/-- Modelled from the spec: suppression rule (b) — the line contains a
placeholder keyword together with a secret-related keyword. -/
def isPlaceholderLine (l : List Char) : Bool :=
  let low := l.map Char.toLower
  PLACEHOLDER_WORDS.any (fun w => containsSub low w.toList) &&
  SECRET_WORDS.any (fun w => containsSub low w.toList)

/-- Modelled from the spec: false-positive suppression — a match is
discarded when its source line is a comment line, or the line pairs a
placeholder keyword with a secret keyword, or the captured value is at most
3 characters. -/
def suppressed (content : List Char) (m : RawMatch) : Bool :=
  isCommentLine (lineAt content m.start) ||
  isPlaceholderLine (lineAt content m.start) ||
  m.value.length ≤ 3

/-- Modelled from the spec: build a `Finding` for a surviving match. -/
def mkFinding (path : String) (content : List Char) (m : RawMatch) :
    Finding :=
  { file_path := path
    line_number := lineNumberOf content m.start
    severity := m.severity
    label := m.label
    code_snippet := String.mk (trimChars (lineAt content m.start))
    masked_value := mask m.text }

/-- Modelled from the spec: the per-file match engine — apply suppression to
every raw match and turn the survivors into findings. -/
def filterMatches (path : String) (content : List Char)
    (ms : List RawMatch) : List Finding :=
  ms.filterMap
    (fun m => if suppressed content m then none else some (mkFinding path content m))

/-- Modelled from the spec: the directory-name exclusion set of the tree
walker. -/
def EXCLUDE_DIRS : List String :=
  ["node_modules", ".git", "dist", "build", "__pycache__", "venv", ".venv"]

/-- Modelled from the spec: one file-system entry handed to the walker — the
path as a list of components and the result of reading it (a decode/read
error message, or the decoded content). -/
structure FileEntry where
  path : List String
  read : Except String (List Char)

/-- True when reading the entry failed. -/
def readFailed (e : FileEntry) : Bool :=
  match e.read with
  | Except.error _ => true
  | Except.ok _ => false

/-- Path rendered with `/` separators, for reports and warnings. -/
def pathStr (p : List String) : String :=
  String.intercalate "/" p

/-- Modelled from the spec: the walker's per-path verdict — no path
component in the exclusion set, extension not in the binary-extension
exclusion set, and the file name not in the explicit allow-skip list.  The
spec does not enumerate the latter two sets, so they are parameters. -/
def shouldScan (binExts skipNames : List String) (path : List String) :
    Bool :=
  !(path.any (fun comp => EXCLUDE_DIRS.contains comp)) &&
  !(binExts.any (fun ext => (path.getLastD "").endsWith ext)) &&
  !(skipNames.contains (path.getLastD ""))

/-- Modelled from the spec: the tree walker — enumerate candidate files and
keep those passing the exclusion checks. -/
def walkFS (binExts skipNames : List String) (fs : List FileEntry) :
    List FileEntry :=
  fs.filter (fun e => shouldScan binExts skipNames e.path)

/-- Modelled from the spec: per-severity counters of a scan run. -/
structure SevCounts where
  critical : Nat
  high : Nat
  medium : Nat
  low : Nat
deriving DecidableEq

/-- Sum of the four per-severity counters. -/
def SevCounts.sum (c : SevCounts) : Nat :=
  c.critical + c.high + c.medium + c.low

/-- Lower-case a string character by character (`severity.lower()`). -/
def lowerStr (s : String) : String :=
  String.mk (s.data.map Char.toLower)

/-- Modelled from the spec: whether a severity string is one of the four
known levels, compared lower-cased. -/
def knownSeverity (sev : String) : Bool :=
  if lowerStr sev == "critical" then true
  else if lowerStr sev == "high" then true
  else if lowerStr sev == "medium" then true
  else if lowerStr sev == "low" then true
  else false

/-- Modelled from the spec: increment the counter for a known severity;
unrecognized severities leave the counters untouched. -/
def bumpSeverity (c : SevCounts) (sev : String) : SevCounts :=
  if lowerStr sev == "critical" then { c with critical := c.critical + 1 }
  else if lowerStr sev == "high" then { c with high := c.high + 1 }
  else if lowerStr sev == "medium" then { c with medium := c.medium + 1 }
  else if lowerStr sev == "low" then { c with low := c.low + 1 }
  else c

/-- Modelled from the spec: the scan-run accumulator — files scanned,
ordered findings, per-severity counters, per-file warnings. -/
structure ScanRun where
  files_scanned : Nat
  findings : List Finding
  counts : SevCounts
  warnings : List String
deriving DecidableEq

/-- The empty scan run created at invocation. -/
def initRun : ScanRun :=
  { files_scanned := 0, findings := [], counts := ⟨0, 0, 0, 0⟩, warnings := [] }

/-- Modelled from the spec: append one finding and bump its severity
counter. -/
def addFinding (run : ScanRun) (f : Finding) : ScanRun :=
  { run with
    findings := run.findings ++ [f]
    counts := bumpSeverity run.counts f.severity }

/-- Modelled from the spec: scan one walked file — a read/decode failure is
recorded as a warning and the run continues; otherwise the file counts as
scanned and its surviving matches are accumulated. -/
def processFile (matcher : List Char → List RawMatch) (run : ScanRun)
    (e : FileEntry) : ScanRun :=
  match e.read with
  | Except.error msg =>
    { run with warnings := run.warnings ++ [pathStr e.path ++ ": " ++ msg] }
  | Except.ok content =>
    (filterMatches (pathStr e.path) content (matcher content)).foldl
      addFinding
      { run with files_scanned := run.files_scanned + 1 }

/-- Modelled from the spec: a whole scan invocation.  `root = none` models
an invalid root path, which is fatal before any file is scanned; otherwise
the walker enumerates the tree and every file is processed in order. -/
def runScan (matcher : List Char → List RawMatch)
    (binExts skipNames : List String) (root : Option (List FileEntry)) :
    Except String ScanRun :=
  match root with
  | none => Except.error "Error: path does not exist"
  | some fs => Except.ok ((walkFS binExts skipNames fs).foldl (processFile matcher) initRun)

/-- Two consecutive invocations of the scanner on the same unmodified
tree. -/
def runTwice (matcher : List Char → List RawMatch)
    (binExts skipNames : List String) (root : Option (List FileEntry)) :
    Except String ScanRun × Except String ScanRun :=
  (runScan matcher binExts skipNames root, runScan matcher binExts skipNames root)

/-- The counting invariant of a scan run: the four per-severity counters sum
to at most the number of findings, with equality whenever every finding's
severity is one of the four known levels. -/
def countsOk (run : ScanRun) : Prop :=
  run.counts.sum ≤ run.findings.length ∧
  ((∀ f ∈ run.findings, knownSeverity f.severity = true) →
    run.counts.sum = run.findings.length)

/-- A concrete one-rule matcher used to exercise the engine. -/
def matcherW : List Char → List RawMatch :=
  fun _ =>
    [⟨0, "supersecretpassword123", "supersecretpassword123",
      "Hardcoded Password", "CRITICAL"⟩]

/-- A concrete one-file tree used to exercise the engine. -/
def fsW : List FileEntry :=
  [⟨["app.py"], Except.ok ("password = \"supersecretpassword123\"".toList)⟩]

/-- The scan run produced by `matcherW` over `fsW`. -/
def runW : ScanRun :=
  (walkFS [] [] fsW).foldl (processFile matcherW) initRun

end Scanner

namespace TaskApi

theorem eraseP_id_eq_filter (db : List Task) (i : Nat)
    (hnd : (db.map Task.id).Nodup) :
    db.eraseP (fun t => t.id == i) = db.filter (fun t => t.id != i) := by
  induction db with
  | nil => rfl
  | cons a l ih =>
    rw [List.map_cons, List.nodup_cons] at hnd
    by_cases h : a.id = i
    · rw [List.eraseP_cons_of_pos (by simp [h]),
        List.filter_cons_of_neg (by simp [h])]
      exact (List.filter_eq_self.mpr (fun t ht => by
        have : t.id ≠ i := fun hti => hnd.1 (h ▸ hti ▸ List.mem_map_of_mem Task.id ht)
        simpa using this)).symm
    · rw [List.eraseP_cons_of_neg (by simp [h]),
        List.filter_cons_of_pos (by simp [h]), ih hnd.2]

theorem get_task_eq_none_iff (db : List Task) (i : Nat) :
    get_task db i = none ↔ ∀ t ∈ db, t.id ≠ i := by
  rw [get_task, List.find?_eq_none]
  simp

/-- C8: `delete_task` returns `True` and removes exactly the row with the
given id when it exists; it returns `False` and leaves the table unchanged
when it does not; and the `DELETE /tasks/{task_id}` endpoint responds 404
exactly when no task with that id exists. -/
theorem delete_task_spec (db : List Task) (i : Nat)
    (hnd : (db.map Task.id).Nodup) :
    ((∀ t ∈ db, t.id ≠ i) → delete_task db i = (false, db)) ∧
    ((∃ t ∈ db, t.id = i) →
      (delete_task db i).1 = true ∧
      (delete_task db i).2 = db.filter (fun t => t.id != i)) ∧
    (delete_task_endpoint db i = Except.error 404 ↔ ∀ t ∈ db, t.id ≠ i) := by
  refine ⟨?_, ?_, ?_⟩
  · intro h
    rw [delete_task, (get_task_eq_none_iff db i).mpr h]
  · rintro ⟨t, ht, hid⟩
    cases hf : get_task db i with
    | none =>
      exact absurd hid ((get_task_eq_none_iff db i).mp hf t ht)
    | some t0 =>
      rw [delete_task, hf]
      exact ⟨rfl, eraseP_id_eq_filter db i hnd⟩
  · cases hf : get_task db i with
    | none =>
      simp only [delete_task_endpoint, delete_task, hf]
      simpa using (get_task_eq_none_iff db i).mp hf
    | some t0 =>
      simp only [delete_task_endpoint, delete_task, hf]
      constructor
      · intro h
        exact absurd h (by simp)
      · intro h
        have : get_task db i = none := (get_task_eq_none_iff db i).mpr h
        rw [this] at hf
        exact absurd hf (by simp)

/-- Witness for C8 at a concrete table: id 3 is absent (False, unchanged,
404), id 2 is present (True, removed). -/
theorem delete_task_spec_witness :
    delete_task dbW 3 = (false, dbW) ∧
    (delete_task dbW 2).1 = true ∧
    (delete_task dbW 2).2 = dbW.filter (fun t => t.id != 2) ∧
    delete_task_endpoint dbW 3 = Except.error 404 :=
  ⟨(delete_task_spec dbW 3 (by decide)).1 (by decide),
   ((delete_task_spec dbW 2 (by decide)).2.1 (by decide)).1,
   ((delete_task_spec dbW 2 (by decide)).2.1 (by decide)).2,
   (delete_task_spec dbW 3 (by decide)).2.2.mpr (by decide)⟩

/-- C9: `update_task` overwrites exactly the fields explicitly set in the
payload, always resets `updated_at`, keeps `id`, `created_at` and every
unset field, writes the updated row back in place leaving all other rows
untouched, and returns `None` with an unchanged table when the id is
absent. -/
theorem update_task_spec (db : List Task) (i : Nat) (u : TaskUpdate)
    (now : Nat) :
    ((∀ t ∈ db, t.id ≠ i) → update_task db i u now = (none, db)) ∧
    (∀ t, get_task db i = some t →
      ∃ t2, (update_task db i u now).1 = some t2 ∧
        t2.id = t.id ∧
        t2.created_at = t.created_at ∧
        t2.updated_at = now ∧
        (u.title = none → t2.title = t.title) ∧
        (∀ v, u.title = some v → t2.title = v) ∧
        (u.description = none → t2.description = t.description) ∧
        (∀ v, u.description = some v → t2.description = v) ∧
        (u.status = none → t2.status = t.status) ∧
        (∀ v, u.status = some v → t2.status = v) ∧
        (u.priority = none → t2.priority = t.priority) ∧
        (∀ v, u.priority = some v → t2.priority = v) ∧
        (update_task db i u now).2 =
          db.map (fun s => if s.id == i then t2 else s)) := by
  constructor
  · intro h
    rw [update_task, (get_task_eq_none_iff db i).mpr h]
  · intro t ht
    refine ⟨applyUpdate t u now, ?_, rfl, rfl, rfl, ?_, ?_, ?_, ?_, ?_, ?_, ?_, ?_, ?_⟩
    · rw [update_task, ht]
    · intro h
      simp [applyUpdate, h]
    · intro v h
      simp [applyUpdate, h]
    · intro h
      simp [applyUpdate, h]
    · intro v h
      simp [applyUpdate, h]
    · intro h
      simp [applyUpdate, h]
    · intro v h
      simp [applyUpdate, h]
    · intro h
      simp [applyUpdate, h]
    · intro v h
      simp [applyUpdate, h]
    · rw [update_task, ht]

/-- Witness for C9 at a concrete table and payload: a missing id leaves the
table unchanged; an existing row gets exactly the set fields overwritten,
`updated_at` reset and the rest kept. -/
theorem update_task_spec_witness :
    update_task dbW 3 updW 9 = (none, dbW) ∧
    (update_task dbW 1 updW 9).1 =
      some ⟨1, "new title", none, TaskStatus.completed, TaskPriority.low, 0, 9⟩ := by
  refine ⟨(update_task_spec dbW 3 updW 9).1 (by decide), ?_⟩
  obtain ⟨t2, h1, hid, hca, hua, ht1, ht2, hd1, hd2, hs1, hs2, hp1, hp2, hdb⟩ :=
    (update_task_spec dbW 1 updW 9).2
      ⟨1, "alpha", none, TaskStatus.pending, TaskPriority.low, 0, 0⟩ (by decide)
  have h2 : t2 = ⟨1, "new title", none, TaskStatus.completed, TaskPriority.low, 0, 9⟩ := by
    obtain ⟨a, b, c, d, e, f, g⟩ := t2
    simp only at hid hca hua
    have hb : b = "new title" := ht2 "new title" rfl
    have hd : c = none := hd1 rfl
    have hs : d = TaskStatus.completed := hs2 TaskStatus.completed rfl
    have hp : e = TaskPriority.low := hp1 rfl
    simp [hid, hca, hua, hb, hd, hs, hp]
  rw [h2] at h1
  exact h1

end TaskApi

namespace TaskApi

theorem mem_insertDesc {x t : Task} {l : List Task} :
    x ∈ insertDesc t l ↔ x = t ∨ x ∈ l := by
  induction l with
  | nil => simp [insertDesc]
  | cons s rest ih =>
    simp only [insertDesc]
    split
    · simp only [List.mem_cons, ih]
      tauto
    · simp only [List.mem_cons]

theorem pairwise_insertDesc {t : Task} {l : List Task}
    (h : l.Pairwise (fun a b => b.created_at ≤ a.created_at)) :
    (insertDesc t l).Pairwise (fun a b => b.created_at ≤ a.created_at) := by
  induction l with
  | nil => simp [insertDesc]
  | cons s rest ih =>
    rw [List.pairwise_cons] at h
    simp only [insertDesc]
    split
    · rename_i hle
      rw [List.pairwise_cons]
      refine ⟨?_, ih h.2⟩
      intro y hy
      rcases mem_insertDesc.mp hy with hy | hy
      · exact hy ▸ hle
      · exact h.1 y hy
    · rename_i hgt
      rw [List.pairwise_cons]
      refine ⟨?_, List.pairwise_cons.mpr h⟩
      intro y hy
      rcases List.mem_cons.mp hy with hy | hy
      · exact hy ▸ Nat.le_of_not_le hgt
      · exact Nat.le_trans (h.1 y hy) (Nat.le_of_not_le hgt)

theorem mem_sortByCreatedDesc {x : Task} {l : List Task} :
    x ∈ sortByCreatedDesc l ↔ x ∈ l := by
  induction l with
  | nil => simp [sortByCreatedDesc]
  | cons t rest ih =>
    simp [sortByCreatedDesc, mem_insertDesc, ih]

theorem pairwise_sortByCreatedDesc (l : List Task) :
    (sortByCreatedDesc l).Pairwise (fun a b => b.created_at ≤ a.created_at) := by
  induction l with
  | nil => simp [sortByCreatedDesc]
  | cons t rest ih => exact pairwise_insertDesc ih

/-- C10: `get_tasks` returns at most `limit` tasks, ordered by `created_at`
descending, each a row of the table matching the filters; the returned
total is the number of matching rows in the whole table, independent of
`skip` and `limit`. -/
theorem get_tasks_spec (db : List Task) (skip limit : Nat)
    (status priority : Option String) :
    (get_tasks db skip limit status priority).1.length ≤ limit ∧
    (get_tasks db skip limit status priority).1.Pairwise
      (fun a b => b.created_at ≤ a.created_at) ∧
    (∀ t ∈ (get_tasks db skip limit status priority).1,
      t ∈ db ∧ matchesFilters status priority t = true) ∧
    (get_tasks db skip limit status priority).2 =
      (db.filter (matchesFilters status priority)).length ∧
    (∀ skip2 limit2 : Nat,
      (get_tasks db skip2 limit2 status priority).2 =
        (get_tasks db skip limit status priority).2) := by
  refine ⟨?_, ?_, ?_, rfl, fun skip2 limit2 => rfl⟩
  · simp [get_tasks]
  · exact (pairwise_sortByCreatedDesc _).sublist
      ((List.take_sublist _ _).trans (List.drop_sublist _ _))
  · intro t ht
    have h1 : t ∈ sortByCreatedDesc (db.filter (matchesFilters status priority)) :=
      ((List.take_sublist _ _).trans (List.drop_sublist _ _)).subset ht
    have h2 := mem_sortByCreatedDesc.mp h1
    exact ⟨(List.mem_filter.mp h2).1, (List.mem_filter.mp h2).2⟩

/-- Witness for C10 at a concrete table: with `limit = 1` the page has at
most one row, a concrete row of the table is returned and matches, and the
total for a status filter counts the whole table. -/
theorem get_tasks_spec_witness :
    (get_tasks dbW 0 1 none none).1.length ≤ 1 ∧
    (⟨2, "beta", some "d", TaskStatus.completed, TaskPriority.high, 5, 5⟩ : Task) ∈ dbW ∧
    matchesFilters none none
      ⟨2, "beta", some "d", TaskStatus.completed, TaskPriority.high, 5, 5⟩ = true ∧
    (get_tasks dbW 0 1 (some "pending") none).2 = 1 :=
  ⟨(get_tasks_spec dbW 0 1 none none).1,
   ((get_tasks_spec dbW 0 1 none none).2.2.1
     ⟨2, "beta", some "d", TaskStatus.completed, TaskPriority.high, 5, 5⟩ (by decide)).1,
   ((get_tasks_spec dbW 0 1 none none).2.2.1
     ⟨2, "beta", some "d", TaskStatus.completed, TaskPriority.high, 5, 5⟩ (by decide)).2,
   ((get_tasks_spec dbW 0 1 (some "pending") none).2.2.2.1).trans (by decide)⟩

end TaskApi

namespace Scanner

theorem splitLines_ne_nil (cs : List Char) : splitLines cs ≠ [] := by
  cases cs with
  | nil => simp [splitLines]
  | cons c rest =>
    simp only [splitLines]
    split <;> simp

theorem splitLines_length (cs : List Char) :
    (splitLines cs).length = cs.countP (fun c => c == Char.ofNat 10) + 1 := by
  induction cs with
  | nil => simp [splitLines]
  | cons c rest ih =>
    simp only [splitLines, List.countP_cons]
    split
    · rename_i h
      simp [h, ih]
    · rename_i h
      rcases hr : splitLines rest with _ | ⟨a, as⟩
      · exact absurd hr (splitLines_ne_nil rest)
      · rw [hr] at ih
        simp only [List.length_cons] at ih
        simp [h, ih]

theorem lineAt_mem (cs : List Char) (off : Nat) :
    lineAt cs off ∈ splitLines cs := by
  have hle : newlinesBefore cs off ≤ cs.countP (fun c => c == Char.ofNat 10) :=
    (List.take_sublist off cs).countP_le _
  have hlt : newlinesBefore cs off < (splitLines cs).length := by
    rw [splitLines_length]
    omega
  rw [lineAt, List.getD_eq_getElem?_getD, List.getElem?_eq_getElem hlt]
  exact List.getElem_mem hlt

/-- C1 (amended): a matched text of at most 8 characters masks to the
literal `***`; a longer one masks to its first 8 characters followed by one
`*` per remaining character — in particular `sk_test_1234567890` (length
18) masks to `sk_test_` followed by 10 asterisks. -/
theorem mask_spec (s : String) :
    (s.length ≤ 8 → mask s = "***") ∧
    (8 < s.length →
      mask s = s.take 8 ++ String.mk (List.replicate (s.length - 8) (Char.ofNat 42))) ∧
    mask "sk_test_1234567890" =
      "sk_test_" ++ String.mk (List.replicate 10 (Char.ofNat 42)) := by
  refine ⟨?_, ?_, by decide⟩
  · intro h
    rw [mask, if_pos h]
  · intro h
    rw [mask, if_neg (by omega)]

/-- Counterexample for C1 as frozen: the claim's concrete example asserts
11 asterisks for `sk_test_1234567890`, but the rule it itself states (first
8 characters kept, one `*` per remaining character of the 18) yields 10. -/
theorem mask_claim_counterexample :
    ¬ (mask "sk_test_1234567890" =
       "sk_test_" ++ String.mk (List.replicate 11 (Char.ofNat 42))) := by
  decide

/-- Witness for C1: both branches of the mask rule at concrete inputs. -/
theorem mask_spec_witness :
    mask "abc" = "***" ∧
    mask "sk_test_1234567890" =
      String.take "sk_test_1234567890" 8 ++
        String.mk (List.replicate ("sk_test_1234567890".length - 8) (Char.ofNat 42)) :=
  ⟨(mask_spec "abc").1 (by decide), (mask_spec "sk_test_1234567890").2.1 (by decide)⟩

/-- C4: a finding's `line_number` is 1 plus the number of newline
characters strictly before the match's start offset; concretely, a match at
offset 4 of `"a\nb\nSECRET=\"abcdefgh12345678\"\n"` (the third line)
reports line 3. -/
theorem line_number_from_offset :
    (∀ (path : String) (content : List Char) (m : RawMatch),
      (mkFinding path content m).line_number =
        (content.take m.start).countP (fun c => c == Char.ofNat 10) + 1) ∧
    (mkFinding "f.py" ("a\nb\nSECRET=\"abcdefgh12345678\"\n".toList)
        ⟨4, "abcdefgh12345678", "abcdefgh12345678", "Hardcoded Secret",
         "CRITICAL"⟩).line_number = 3 :=
  ⟨fun path content m => rfl, by decide⟩

end Scanner

namespace Scanner

/-- C3: over a file content whose every line, after trimming whitespace,
begins with one of the comment markers, the match engine reports zero
findings, whatever raw matches the rules produced on that content. -/
theorem comment_lines_yield_no_findings (path : String) (content : List Char)
    (ms : List RawMatch)
    (h : ∀ l ∈ splitLines content, isCommentLine l = true) :
    filterMatches path content ms = [] := by
  induction ms with
  | nil => rfl
  | cons m rest ih =>
    have hline : isCommentLine (lineAt content m.start) = true :=
      h (lineAt content m.start) (lineAt_mem content m.start)
    have hs : suppressed content m = true := by
      simp [suppressed, hline]
    show (m :: rest).filterMap _ = []
    rw [List.filterMap_cons]
    simp only [hs, if_pos]
    exact ih

/-- Witness for C3: a one-line commented-out API key with a secret-shaped
raw match yields no findings. -/
theorem comment_lines_yield_no_findings_witness :
    filterMatches "f.py" ("# api_key = \"1234567890abcdef\"".toList)
      [⟨13, "1234567890abcdef", "1234567890abcdef", "Hardcoded API Key",
        "CRITICAL"⟩] = [] :=
  comment_lines_yield_no_findings "f.py" _ _ (by decide)

/-- C5: the tree walker never yields a path having any component in the
directory exclusion set, whatever the file's read result — in particular a
file inside any `node_modules/` subtree is never scanned. -/
theorem walker_never_yields_excluded (binExts skipNames : List String)
    (fs : List FileEntry) (p : List String) (comp : String)
    (hc : comp ∈ p) (hex : comp ∈ EXCLUDE_DIRS)
    (r : Except String (List Char)) :
    FileEntry.mk p r ∉ walkFS binExts skipNames fs := by
  intro hmem
  have hscan : shouldScan binExts skipNames p = true :=
    (List.mem_filter.mp hmem).2
  simp only [shouldScan, Bool.and_eq_true, Bool.not_eq_true'] at hscan
  have h1 : p.any (fun c => EXCLUDE_DIRS.contains c) = false := hscan.1.1
  rw [List.any_eq_false] at h1
  exact h1 comp hc (by simpa using hex)

/-- Witness for C5: a file directly under `node_modules` is not yielded
even when it is present in the enumerated tree. -/
theorem walker_never_yields_excluded_witness :
    FileEntry.mk ["node_modules", "a.js"] (Except.ok []) ∉
      walkFS [] [] [FileEntry.mk ["node_modules", "a.js"] (Except.ok [])] :=
  walker_never_yields_excluded [] [] _ ["node_modules", "a.js"]
    "node_modules" (by decide) (by decide) (Except.ok [])

/-- C6: two consecutive runs of the scanner over the same unmodified tree
produce identical results — the scan is a pure function of the input tree
with no run-to-run state. -/
theorem scan_deterministic (matcher : List Char → List RawMatch)
    (binExts skipNames : List String) (root : Option (List FileEntry)) :
    (runTwice matcher binExts skipNames root).1 =
      (runTwice matcher binExts skipNames root).2 := rfl

end Scanner

namespace Scanner

theorem bumpSeverity_sum (c : SevCounts) (sev : String) :
    (bumpSeverity c sev).sum =
      c.sum + (if knownSeverity sev = true then 1 else 0) := by
  by_cases h1 : (lowerStr sev == "critical") = true <;>
  by_cases h2 : (lowerStr sev == "high") = true <;>
  by_cases h3 : (lowerStr sev == "medium") = true <;>
  by_cases h4 : (lowerStr sev == "low") = true <;>
  simp [bumpSeverity, knownSeverity, SevCounts.sum, h1, h2, h3, h4] <;>
  omega

theorem countsOk_addFinding {run : ScanRun} {f : Finding}
    (h : countsOk run) : countsOk (addFinding run f) := by
  obtain ⟨h1, h2⟩ := h
  constructor
  · have hle : (if knownSeverity f.severity = true then 1 else 0) ≤ 1 := by
      split <;> omega
    simp only [addFinding, bumpSeverity_sum, List.length_append,
      List.length_cons, List.length_nil]
    omega
  · intro hall
    have hf : knownSeverity f.severity = true :=
      hall f (by simp [addFinding])
    have hold : ∀ g ∈ run.findings, knownSeverity g.severity = true := by
      intro g hg
      exact hall g (by simp [addFinding, hg])
    simp [addFinding, bumpSeverity_sum, hf, h2 hold]

theorem countsOk_foldl_addFinding (l : List Finding) :
    ∀ run : ScanRun, countsOk run → countsOk (l.foldl addFinding run) := by
  induction l with
  | nil => exact fun run h => h
  | cons f rest ih => exact fun run h => ih _ (countsOk_addFinding h)

theorem countsOk_processFile (m : List Char → List RawMatch)
    (e : FileEntry) {run : ScanRun} (h : countsOk run) :
    countsOk (processFile m run e) := by
  cases hr : e.read with
  | error msg =>
    simp only [processFile, hr]
    exact h
  | ok content =>
    simp only [processFile, hr]
    exact countsOk_foldl_addFinding _ _ h

theorem countsOk_foldl_processFile (m : List Char → List RawMatch)
    (l : List FileEntry) :
    ∀ run : ScanRun, countsOk run → countsOk (l.foldl (processFile m) run) := by
  induction l with
  | nil => exact fun run h => h
  | cons e rest ih => exact fun run h => ih _ (countsOk_processFile m e h)

/-- C2: any completed scan run has its four per-severity counters summing
to at most the number of findings, with equality whenever every finding's
severity is one of the four known levels (unrecognized severities count in
the total but in no per-level bucket). -/
theorem scan_severity_counts (matcher : List Char → List RawMatch)
    (binExts skipNames : List String) (fs : List FileEntry) (run : ScanRun)
    (h : runScan matcher binExts skipNames (some fs) = Except.ok run) :
    run.counts.sum ≤ run.findings.length ∧
    ((∀ f ∈ run.findings, knownSeverity f.severity = true) →
      run.counts.sum = run.findings.length) := by
  have hrun : run =
      (walkFS binExts skipNames fs).foldl (processFile matcher) initRun := by
    simp only [runScan] at h
    exact ((Except.ok.injEq _ _).mp h).symm
  rw [hrun]
  exact countsOk_foldl_processFile matcher _ initRun
    ⟨by simp [initRun, SevCounts.sum], fun _ => by simp [initRun, SevCounts.sum]⟩

/-- Witness for C2: the concrete run over `fsW` has all-known severities
and its counters sum exactly to its number of findings. -/
theorem scan_severity_counts_witness :
    runW.counts.sum = runW.findings.length :=
  (scan_severity_counts matcherW [] [] fsW runW rfl).2 (by decide)

theorem foldl_addFinding_stats (l : List Finding) :
    ∀ run : ScanRun,
      (l.foldl addFinding run).warnings = run.warnings ∧
      (l.foldl addFinding run).files_scanned = run.files_scanned := by
  induction l with
  | nil => exact fun run => ⟨rfl, rfl⟩
  | cons f rest ih => exact fun run => ih (addFinding run f)

theorem foldl_processFile_stats (m : List Char → List RawMatch)
    (l : List FileEntry) :
    ∀ run : ScanRun,
      (l.foldl (processFile m) run).warnings.length =
        run.warnings.length + (l.filter readFailed).length ∧
      (l.foldl (processFile m) run).files_scanned =
        run.files_scanned + (l.filter (fun e => !readFailed e)).length := by
  induction l with
  | nil => intro run; simp
  | cons e rest ih =>
    intro run
    have hstep := ih (processFile m run e)
    rw [List.foldl_cons, List.filter_cons, List.filter_cons]
    cases hr : e.read with
    | error msg =>
      have hf : readFailed e = true := by simp [readFailed, hr]
      have hw : (processFile m run e).warnings =
          run.warnings ++ [pathStr e.path ++ ": " ++ msg] := by
        simp [processFile, hr]
      have hfs : (processFile m run e).files_scanned = run.files_scanned := by
        simp [processFile, hr]
      rw [hf]
      constructor
      · rw [hstep.1, hw]
        simp
        omega
      · rw [hstep.2, hfs]
        simp
    | ok content =>
      have hf : readFailed e = false := by simp [readFailed, hr]
      have hpf := foldl_addFinding_stats
        (filterMatches (pathStr e.path) content (m content))
        { run with files_scanned := run.files_scanned + 1 }
      have hw : (processFile m run e).warnings = run.warnings := by
        simp only [processFile, hr]
        exact hpf.1
      have hfs : (processFile m run e).files_scanned =
          run.files_scanned + 1 := by
        simp only [processFile, hr]
        exact hpf.2
      rw [hf]
      constructor
      · rw [hstep.1, hw]
        simp
      · rw [hstep.2, hfs]
        simp
        omega

/-- C7: an invalid root path is fatal — the scan returns an error with no
run at all — while a read or decode failure on a single file is recorded as
one warning and the walk continues: the run always completes, with one
warning per unreadable walked file and every readable walked file
scanned. -/
theorem scan_error_handling (matcher : List Char → List RawMatch)
    (binExts skipNames : List String) :
    (∃ msg, runScan matcher binExts skipNames none = Except.error msg) ∧
    (∀ fs : List FileEntry, ∃ run : ScanRun,
      runScan matcher binExts skipNames (some fs) = Except.ok run ∧
      run.warnings.length =
        ((walkFS binExts skipNames fs).filter readFailed).length ∧
      run.files_scanned =
        ((walkFS binExts skipNames fs).filter (fun e => !readFailed e)).length) := by
  refine ⟨⟨"Error: path does not exist", rfl⟩, fun fs => ⟨_, rfl, ?_, ?_⟩⟩
  · have := (foldl_processFile_stats matcher (walkFS binExts skipNames fs) initRun).1
    simpa [initRun] using this
  · have := (foldl_processFile_stats matcher (walkFS binExts skipNames fs) initRun).2
    simpa [initRun] using this

end Scanner
